import Mathlib

/-!
Shallow embedding of `sequence_models/data.py` — the batch-construction
pipeline of the protein-sequence-models repository: the length-bucketed
sampler (`SortishSampler`), the greedy token-budget batch packer
(`ApproxBatchSampler`), the collaters (`SimpleCollater`, `LMCollater`,
`AncestorCollater`, `MLMCollater`) and the structure assembler
(`StructureCollater`); together with theorems settling the
specification's claims about them.

Modelling conventions:
- machine integers are `Nat`; sequences are `List Char`; tensors are
  rectangular `List (List _)` values;
- the two floating-point computations (`int(len(seq) * 0.15)` in
  `MLMCollater._prep` and `int(math.ceil(n / num_replicas))` in
  `SortishSampler.__init__`) are embedded as the exact integer
  computations they perform for every realistic input size; the IEEE-754
  double analysis is in the doc comments of `mlmNumMod` and
  `sortishNumSamples`;
- randomness (`random.sample`, `np.random.choice`, `np.random.uniform`,
  `np.random.random`, the epoch shuffles) is passed in as explicit
  oracle parameters, constrained by hypotheses that state exactly what
  the random library guarantees about the draws;
- Python exceptions (`AssertionError` on the sampler's asserts, the
  `max()`/`torch.stack` failures on empty or ragged input) are embedded
  as `Option`, with `none` marking the raising run.
-/

namespace SeqModels

/-! ### ApproxBatchSampler (data.py lines 325-364)

`ApproxBatchSampler.__iter__` keeps a running `batch` and the running
maximum length `length` of its members, appends an incoming index when
`(len(batch) + 1) * max(length, this_length) <= max_tokens` (flushing
when the batch reaches `max_batch`), and otherwise yields the current
batch and starts a new one holding just the incoming index.  On stream
exhaustion the pending batch is dropped (the generator simply returns).
The length table `sample_lengths` is modelled as a function on indices. -/

/-- The maximum of the lengths of the members of a batch (`0` for the
empty batch) — the value the `length` accumulator of
`ApproxBatchSampler.__iter__` tracks. -/
def batchMax (lens : Nat → Nat) (batch : List Nat) : Nat :=
  (batch.map lens).foldr max 0

/-- Embeds the loop body of `ApproxBatchSampler.__iter__` (data.py
lines 349-364): arguments after the stream are the `batch` and `length`
accumulators. -/
def approxIter (lens : Nat → Nat) (maxTokens maxBatch : Nat) :
    List Nat → List Nat → Nat → List (List Nat)
  | [], _, _ => []
  | idx :: rest, batch, length =>
    if (batch.length + 1) * max length (lens idx) ≤ maxTokens then
      if batch.length + 1 = maxBatch then
        (batch ++ [idx]) :: approxIter lens maxTokens maxBatch rest [] 0
      else
        approxIter lens maxTokens maxBatch rest (batch ++ [idx]) (max length (lens idx))
    else
      batch :: approxIter lens maxTokens maxBatch rest [idx] (lens idx)

/-- The full list of batches `ApproxBatchSampler.__iter__` yields on a
given index stream: the loop started from an empty batch. -/
def approxBatches (lens : Nat → Nat) (maxTokens maxBatch : Nat) (stream : List Nat) :
    List (List Nat) :=
  approxIter lens maxTokens maxBatch stream [] 0

theorem batchMax_append (lens : Nat → Nat) (batch : List Nat) (idx : Nat) :
    batchMax lens (batch ++ [idx]) = max (batchMax lens batch) (lens idx) := by
  unfold batchMax
  induction batch with
  | nil => simp
  | cons a t ih =>
    simp only [List.map_cons, List.foldr_cons, List.map_append, List.foldr_append] at *
    rw [ih, Nat.max_assoc]

/-- Loop invariant of the packer: if every streamed length fits the
token budget on its own, `max_batch ≥ 1`, and the accumulators are
consistent (`length` is the batch maximum, the running batch is within
budget and strictly below `max_batch`), then every emitted batch is
non-empty, within `max_batch`, and within the token budget. -/
theorem approxIter_budget (lens : Nat → Nat) (maxTokens maxBatch : Nat)
    (stream : List Nat) (hmb : 1 ≤ maxBatch)
    (hlen : ∀ i ∈ stream, lens i ≤ maxTokens) :
    ∀ batch length, length = batchMax lens batch →
      batch.length * length ≤ maxTokens → batch.length < maxBatch →
      ∀ b ∈ approxIter lens maxTokens maxBatch stream batch length,
        b ≠ [] ∧ b.length ≤ maxBatch ∧ b.length * batchMax lens b ≤ maxTokens := by
  induction stream with
  | nil =>
    intro batch length _ _ _ b hb
    simp [approxIter] at hb
  | cons idx rest ih =>
    intro batch length hlenEq hbud hsize b hb
    have hidx : lens idx ≤ maxTokens := hlen idx (by simp)
    have hrest : ∀ i ∈ rest, lens i ≤ maxTokens := fun i hi => hlen i (by simp [hi])
    rw [approxIter] at hb
    by_cases hfit : (batch.length + 1) * max length (lens idx) ≤ maxTokens
    · rw [if_pos hfit] at hb
      by_cases hflush : batch.length + 1 = maxBatch
      · rw [if_pos hflush] at hb
        rcases List.mem_cons.mp hb with hb | hb
        · subst hb
          refine ⟨by simp, ?_, ?_⟩
          · simp [hflush]
          · rw [batchMax_append, ← hlenEq]
            simpa using hfit
        · exact ih hrest [] 0 rfl (by simp) (by simpa using hmb) b hb
      · rw [if_neg hflush] at hb
        refine ih hrest (batch ++ [idx]) (max length (lens idx)) ?_ ?_ ?_ b hb
        · rw [batchMax_append, hlenEq]
        · simpa using hfit
        · simp only [List.length_append, List.length_cons, List.length_nil]
          omega
    · rw [if_neg hfit] at hb
      have hbatchNe : batch ≠ [] := by
        intro hnil
        subst hnil
        simp only [List.length_nil, Nat.zero_add, one_mul] at hfit
        rw [hlenEq] at hfit
        simp [batchMax] at hfit
        omega
      rcases List.mem_cons.mp hb with hb | hb
      · subst hb
        exact ⟨hbatchNe, by omega, by rw [← hlenEq]; exact hbud⟩
      · have hone : 1 < maxBatch := by
          rcases Nat.lt_or_ge 1 maxBatch with h | h
          · exact h
          · exfalso
            have : maxBatch = 1 := by omega
            subst this
            have : batch = [] := List.length_eq_zero.mp (by omega)
            exact hbatchNe this
        refine ih hrest [idx] (lens idx) ?_ ?_ ?_ b hb
        · simp [batchMax]
        · simpa using hidx
        · simpa using hone

/-- C1 (amended): provided `max_batch ≥ 1` and every streamed item's
length is at most `max_tokens`, every batch emitted by
`ApproxBatchSampler.__iter__` is non-empty and satisfies both
`len(batch) ≤ max_batch` and
`len(batch) * max(LengthTable[i] for i in batch) ≤ max_tokens`. -/
theorem c1_amended (lens : Nat → Nat) (maxTokens maxBatch : Nat) (stream : List Nat)
    (hmb : 1 ≤ maxBatch) (hlen : ∀ i ∈ stream, lens i ≤ maxTokens) :
    ∀ b ∈ approxBatches lens maxTokens maxBatch stream,
      b ≠ [] ∧ b.length ≤ maxBatch ∧ b.length * batchMax lens b ≤ maxTokens :=
  approxIter_budget lens maxTokens maxBatch stream hmb hlen [] 0 rfl (by simp)
    (by simpa using hmb)

/-- Witness for C1 (amended): lengths `[3,3,1]`, `max_tokens = 5`,
`max_batch = 2`, stream `[0,1,2]`; the emitted batch `[0]` is non-empty
and within both budgets. -/
theorem c1_amended_witness :
    (1 ≤ 2 ∧ (∀ i ∈ [0, 1, 2], (fun j => [3, 3, 1].getD j 0) i ≤ 5) ∧
      [0] ∈ approxBatches (fun j => [3, 3, 1].getD j 0) 5 2 [0, 1, 2]) ∧
    ([0] ≠ [] ∧ List.length [0] ≤ 2 ∧
      List.length [0] * batchMax (fun j => [3, 3, 1].getD j 0) [0] ≤ 5) :=
  ⟨⟨by decide, by decide, by decide⟩,
    c1_amended (fun j => [3, 3, 1].getD j 0) 5 2 [0, 1, 2] (by decide) (by decide)
      [0] (by decide)⟩

/-- Counterexample to C1 as stated.  Part one: with the length table
`[100, 100]`, `max_tokens = 8`, `max_batch = 10` and stream `[0, 1]`,
the packer emits the batches `[]` and `[0]`, and the batch `[0]`
violates the token budget (`1 * 100 > 8`): the else-branch of
`ApproxBatchSampler.__iter__` starts a new batch from an item without
checking that its length alone fits the budget.  Part two: with
`max_batch = 0`, unit lengths, `max_tokens = 2` and stream `[0,1,2]`,
the emitted batch `[0, 1]` has size `2 > max_batch`: the flush check
`len(batch) == max_batch` is an equality test that a batch begun in the
else-branch can step over. -/
theorem c1_counterexample :
    (approxBatches (fun j => [100, 100].getD j 0) 8 10 [0, 1] = [[], [0]] ∧
      ¬ List.length [0] * batchMax (fun j => [100, 100].getD j 0) [0] ≤ 8) ∧
    (approxBatches (fun _ => 1) 2 0 [0, 1, 2] = [[0, 1]] ∧
      ¬ List.length [0, 1] ≤ 0) := by
  exact ⟨⟨by decide, by decide⟩, ⟨by decide, by decide⟩⟩

/-- C2: evaluation of the code at the failing input.  When a single
item's length (100) alone exceeds `max_tokens = 8`, the embedded
`ApproxBatchSampler.__iter__` raises nothing: it is a total function
that silently yields an empty batch followed by the over-budget batch
`[0]` (token load `1 * 100 > 8`).  There is no `BudgetViolationError`
(or any raise) anywhere in `data.py`. -/
theorem c2_silent_overbudget :
    approxBatches (fun j => [100, 100].getD j 0) 8 10 [0, 1] = [[], [0]] ∧
    ¬ List.length [0] * batchMax (fun j => [100, 100].getD j 0) [0] ≤ 8 := by
  exact ⟨by decide, by decide⟩

/-! ### Tokenization and padding (data.py lines 134-191)

The `Tokenizer` collaborator lives in `sequence_models/utils.py`, which
is not part of the sources under verification; per the spec it maps each
symbol to the integer id given by the symbol's position in the fixed
alphabet ordering.  `_pad` builds a rectangular tensor filled with a pad
value and copies each row's tokens into its prefix; on an empty batch
the Python `max()` call raises, which the collater embeddings below
surface as `Option.none`. -/

/-- Modelled from the spec: the Tokenizer collaborator
(`sequence_models/utils.py`, outside the verified sources) — "symbol
mapped to its integer id via the alphabet's fixed ordering". -/
def tokenize (alphabet : List Char) (s : List Char) : List Nat :=
  s.map (fun c => alphabet.indexOf c)

/-- `max(len(t) for t in tokenized)` with the Python convention replaced
by `0` on the empty list (the collaters guard the empty case
separately). -/
def maxLenOf (rows : List (List Nat)) : Nat :=
  rows.foldr (fun t m => max t.length m) 0

/-- Embeds `_pad` (data.py lines 185-191): each row extended to the
longest row's length with the fill value. -/
def padRows (rows : List (List Nat)) (value : Nat) : List (List Nat) :=
  rows.map (fun t => t ++ List.replicate (maxLenOf rows - t.length) value)

theorem maxLenOf_eq_foldr (rows : List (List Nat)) :
    maxLenOf rows = (rows.map List.length).foldr max 0 := by
  induction rows with
  | nil => rfl
  | cons t rest ih =>
    show max t.length (maxLenOf rest) = _
    rw [List.map_cons, List.foldr_cons, ih]

theorem maxLenOf_eq_of_map_length {rows1 rows2 : List (List Nat)}
    (h : rows1.map List.length = rows2.map List.length) :
    maxLenOf rows1 = maxLenOf rows2 := by
  rw [maxLenOf_eq_foldr, maxLenOf_eq_foldr, h]

theorem length_le_maxLenOf {rows : List (List Nat)} {t : List Nat} (h : t ∈ rows) :
    t.length ≤ maxLenOf rows := by
  induction rows with
  | nil => cases h
  | cons a rest ih =>
    rcases List.mem_cons.mp h with rfl | h
    · simp [maxLenOf]
    · have := ih h
      simp only [maxLenOf, List.foldr_cons] at *
      omega

theorem padRows_row_length {rows : List (List Nat)} {v : Nat} {r : List Nat}
    (h : r ∈ padRows rows v) : r.length = maxLenOf rows := by
  rcases List.mem_map.mp h with ⟨t, ht, rfl⟩
  have := length_le_maxLenOf ht
  simp only [List.length_append, List.length_replicate]
  omega

theorem maxLenOf_const {rows : List (List Nat)} {L : Nat} (hne : rows ≠ [])
    (h : ∀ t ∈ rows, t.length = L) : maxLenOf rows = L := by
  induction rows with
  | nil => exact absurd rfl hne
  | cons t rest ih =>
    rcases eq_or_ne rest [] with rfl | hr
    · simp [maxLenOf, h t (by simp)]
    · have hrest := ih hr (fun x hx => h x (by simp [hx]))
      simp only [maxLenOf, List.foldr_cons] at *
      rw [hrest, h t (by simp)]
      omega

theorem tokenize_map_length (alphabet : List Char) (l : List (List Char)) :
    (l.map (tokenize alphabet)).map List.length = l.map List.length := by
  simp [tokenize, List.map_map, Function.comp]

/-! ### SimpleCollater (data.py lines 134-153)

`_prep` tokenizes the batch, then either pads with the alphabet's PAD id
or plain-stacks (`torch.stack`, which requires the rows to already share
one length and raises otherwise; raising — including the empty-batch
case — is modelled as `none`). -/

/-- Embeds `SimpleCollater._prep` (data.py lines 146-153).  `padSym` is
the PAD symbol from `sequence_models/constants.py`. -/
def simplePrep (alphabet : List Char) (padSym : Char) (padFlag : Bool)
    (sequences : List (List Char)) : Option (List (List Nat)) :=
  let toks := sequences.map (tokenize alphabet)
  if padFlag then
    if toks.isEmpty then none
    else some (padRows toks (alphabet.indexOf padSym))
  else
    if toks.isEmpty then none
    else if toks.all (fun t => t.length == maxLenOf toks) then some toks
    else none

/-- C9: on a non-empty batch whose sequences all share one length, the
base collater's output with `pad=true` equals its output with
`pad=false` — padding adds nothing when no row is short, and plain
stacking succeeds. -/
theorem c9_pad_idempotence (alphabet : List Char) (padSym : Char) (L : Nat)
    (sequences : List (List Char)) (hne : sequences ≠ [])
    (hlen : ∀ s ∈ sequences, s.length = L) :
    simplePrep alphabet padSym true sequences = simplePrep alphabet padSym false sequences := by
  have htoks : ∀ t ∈ sequences.map (tokenize alphabet), t.length = L := by
    intro t ht
    rcases List.mem_map.mp ht with ⟨s, hs, rfl⟩
    simpa [tokenize] using hlen s hs
  have htne : sequences.map (tokenize alphabet) ≠ [] := by
    intro hcon
    exact hne (List.map_eq_nil_iff.mp hcon)
  have hmax : maxLenOf (sequences.map (tokenize alphabet)) = L := maxLenOf_const htne htoks
  have hEmpty : ((sequences.map (tokenize alphabet)).isEmpty = true) = False := by
    simp [List.isEmpty_iff, htne]
  have hpad : padRows (sequences.map (tokenize alphabet)) (alphabet.indexOf padSym)
      = sequences.map (tokenize alphabet) := by
    unfold padRows
    rw [hmax]
    conv_rhs => rw [← List.map_id (sequences.map (tokenize alphabet))]
    apply List.map_congr_left
    intro t ht
    simp [htoks t ht]
  have hall : (sequences.map (tokenize alphabet)).all
      (fun t => t.length == maxLenOf (sequences.map (tokenize alphabet))) = true := by
    rw [List.all_eq_true]
    intro t ht
    rw [hmax, htoks t ht]
    exact beq_self_eq_true L
  simp only [simplePrep, hEmpty, if_false, hall, if_true, hpad]
  rfl

/-- Witness for C9: a two-sequence batch of shared length 2 collates
identically with and without padding. -/
theorem c9_witness :
    (([['A', 'B'], ['B', 'A']] : List (List Char)) ≠ [] ∧
      (∀ s ∈ ([['A', 'B'], ['B', 'A']] : List (List Char)), s.length = 2)) ∧
    simplePrep ['A', 'B', '-'] '-' true [['A', 'B'], ['B', 'A']]
      = simplePrep ['A', 'B', '-'] '-' false [['A', 'B'], ['B', 'A']] :=
  ⟨⟨by decide, by decide⟩,
    c9_pad_idempotence ['A', 'B', '-'] '-' 2 [['A', 'B'], ['B', 'A']] (by decide) (by decide)⟩

/-! ### LMCollater and AncestorCollater (data.py lines 156-208)

`LMCollater._prep` splits every sequence into a source (`START + s`, or
`STOP + reversed(s)` when backwards) and a target (`s + STOP`, or
`reversed(s) + START`), then `_tokenize_and_mask` tokenizes both, builds
an all-ones mask shaped like each target, and pads source and target
with the PAD id and the mask with fill value 0.
`AncestorCollater._prep` instead assembles
`src = START + s + STOP + a`, `tgt = s + STOP + a + STOP` (reversing
both `s` and `a` first when backwards) and reuses the same
`_tokenize_and_mask`. -/

/-- The source strings built by `LMCollater._split`. -/
def lmSrcStrings (backwards : Bool) (startSym stopSym : Char)
    (sequences : List (List Char)) : List (List Char) :=
  if backwards then sequences.map (fun s => stopSym :: s.reverse)
  else sequences.map (fun s => startSym :: s)

/-- The target strings built by `LMCollater._split`. -/
def lmTgtStrings (backwards : Bool) (startSym stopSym : Char)
    (sequences : List (List Char)) : List (List Char) :=
  if backwards then sequences.map (fun s => s.reverse ++ [startSym])
  else sequences.map (fun s => s ++ [stopSym])

/-- Embeds `LMCollater._tokenize_and_mask` (data.py lines 174-182):
tokenize source and target, build `ones_like` masks over the targets,
pad source and target with the PAD id and the mask with 0.  The
empty-batch `max()` failure inside `_pad` is surfaced as `none`. -/
def tokenizeAndMask (alphabet : List Char) (padSym : Char) (src tgt : List (List Char)) :
    Option (List (List Nat) × List (List Nat) × List (List Nat)) :=
  if (src.map (tokenize alphabet)).isEmpty then none
  else some
    ( padRows (src.map (tokenize alphabet)) (alphabet.indexOf padSym)
    , padRows (tgt.map (tokenize alphabet)) (alphabet.indexOf padSym)
    , padRows ((tgt.map (tokenize alphabet)).map (fun t => List.replicate t.length 1)) 0 )

/-- Embeds `LMCollater._prep` (data.py lines 162-172). -/
def lmPrep (alphabet : List Char) (padSym startSym stopSym : Char) (backwards : Bool)
    (sequences : List (List Char)) :
    Option (List (List Nat) × List (List Nat) × List (List Nat)) :=
  tokenizeAndMask alphabet padSym (lmSrcStrings backwards startSym stopSym sequences)
    (lmTgtStrings backwards startSym stopSym sequences)

/-- The source strings built by `AncestorCollater._prep`:
`START + s + STOP + a`, with `s` and `a` reversed first when
backwards. -/
def ancSrcStrings (startSym stopSym : Char) (backwards : Bool)
    (sequences ancestors : List (List Char)) : List (List Char) :=
  List.zipWith (fun s a => startSym :: (s ++ stopSym :: a))
    (if backwards then sequences.map List.reverse else sequences)
    (if backwards then ancestors.map List.reverse else ancestors)

/-- The target strings built by `AncestorCollater._prep`:
`s + STOP + a + STOP`, with `s` and `a` reversed first when
backwards. -/
def ancTgtStrings (stopSym : Char) (backwards : Bool)
    (sequences ancestors : List (List Char)) : List (List Char) :=
  List.zipWith (fun s a => s ++ stopSym :: (a ++ [stopSym]))
    (if backwards then sequences.map List.reverse else sequences)
    (if backwards then ancestors.map List.reverse else ancestors)

/-- Embeds `AncestorCollater._prep` (data.py lines 202-208). -/
def ancestorPrep (alphabet : List Char) (padSym startSym stopSym : Char) (backwards : Bool)
    (sequences ancestors : List (List Char)) :
    Option (List (List Nat) × List (List Nat) × List (List Nat)) :=
  tokenizeAndMask alphabet padSym (ancSrcStrings startSym stopSym backwards sequences ancestors)
    (ancTgtStrings stopSym backwards sequences ancestors)

/-- The common padded width of an `LMCollater` batch: the longest
tokenized target. -/
def lmWidth (alphabet : List Char) (startSym stopSym : Char) (backwards : Bool)
    (sequences : List (List Char)) : Nat :=
  maxLenOf ((lmTgtStrings backwards startSym stopSym sequences).map (tokenize alphabet))

/-- The common padded width of an `AncestorCollater` batch. -/
def ancWidth (alphabet : List Char) (stopSym : Char) (backwards : Bool)
    (sequences ancestors : List (List Char)) : Nat :=
  maxLenOf ((ancTgtStrings stopSym backwards sequences ancestors).map (tokenize alphabet))

theorem lmTgt_tok_length (alphabet : List Char) (startSym stopSym : Char) (backwards : Bool)
    (sequences : List (List Char)) :
    ((lmTgtStrings backwards startSym stopSym sequences).map (tokenize alphabet)).map List.length
      = sequences.map (fun s => s.length + 1) := by
  unfold lmTgtStrings
  cases backwards <;> simp [tokenize, List.map_map, Function.comp]

/-- C7: per example the next-token collater produces
`src = START + sequence`, `target = sequence + STOP` (forward) or
`src = STOP + reverse(sequence)`, `target = reverse(sequence) + START`
(backward), both padded with the PAD id, and a mask row that is all
ones over the `len + 1` real target positions and 0 on the padding
columns. -/
theorem c7_lm_collater (alphabet : List Char) (padSym startSym stopSym : Char)
    (backwards : Bool) (sequences : List (List Char)) (h : sequences ≠ []) :
    lmPrep alphabet padSym startSym stopSym backwards sequences = some
      ( padRows ((if backwards then sequences.map (fun s => stopSym :: s.reverse)
            else sequences.map (fun s => startSym :: s)).map (tokenize alphabet))
          (alphabet.indexOf padSym)
      , padRows ((if backwards then sequences.map (fun s => s.reverse ++ [startSym])
            else sequences.map (fun s => s ++ [stopSym])).map (tokenize alphabet))
          (alphabet.indexOf padSym)
      , sequences.map (fun s =>
          List.replicate (s.length + 1) 1 ++
          List.replicate
            (lmWidth alphabet startSym stopSym backwards sequences - (s.length + 1)) 0) ) := by
  have hmaskrows : ((lmTgtStrings backwards startSym stopSym sequences).map
        (tokenize alphabet)).map (fun t => List.replicate t.length (1 : Nat))
      = sequences.map (fun s => List.replicate (s.length + 1) 1) := by
    unfold lmTgtStrings
    cases backwards <;> simp [tokenize, List.map_map, Function.comp]
  have hwidth : maxLenOf (sequences.map (fun s => List.replicate (s.length + 1) (1 : Nat)))
      = lmWidth alphabet startSym stopSym backwards sequences := by
    unfold lmWidth
    apply maxLenOf_eq_of_map_length
    rw [lmTgt_tok_length]
    simp [List.map_map, Function.comp]
  have hpadmask : padRows (sequences.map (fun s => List.replicate (s.length + 1) (1 : Nat))) 0
      = sequences.map (fun s =>
          List.replicate (s.length + 1) 1 ++
          List.replicate
            (lmWidth alphabet startSym stopSym backwards sequences - (s.length + 1)) 0) := by
    unfold padRows
    rw [hwidth, List.map_map]
    apply List.map_congr_left
    intro s _
    simp [Function.comp]
  have hne : ¬ (((lmSrcStrings backwards startSym stopSym sequences).map
      (tokenize alphabet)).isEmpty = true) := by
    unfold lmSrcStrings
    cases backwards <;> cases sequences <;> simp_all
  unfold lmPrep tokenizeAndMask
  rw [if_neg hne, hmaskrows, hpadmask]
  rfl

/-- Witness for C7: the forward collater on the one-sequence batch
`["A"]` with alphabet `"$*-A"`. -/
theorem c7_witness :
    ([['A']] : List (List Char)) ≠ [] ∧
    lmPrep ['$', '*', '-', 'A'] '-' '$' '*' false [['A']] = some
      ( padRows (([['A']] : List (List Char)).map (fun s => '$' :: s)
          |>.map (tokenize ['$', '*', '-', 'A'])) (['$', '*', '-', 'A'].indexOf '-')
      , padRows (([['A']] : List (List Char)).map (fun s => s ++ ['*'])
          |>.map (tokenize ['$', '*', '-', 'A'])) (['$', '*', '-', 'A'].indexOf '-')
      , ([['A']] : List (List Char)).map (fun s =>
          List.replicate (s.length + 1) 1 ++
          List.replicate
            (lmWidth ['$', '*', '-', 'A'] '$' '*' false [['A']] - (s.length + 1)) 0) ) :=
  ⟨by decide, c7_lm_collater ['$', '*', '-', 'A'] '-' '$' '*' false [['A']] (by decide)⟩

/-- A rectangular tensor of `n` rows of width `w`. -/
def tensorShape (rows : List (List Nat)) (n w : Nat) : Prop :=
  rows.length = n ∧ ∀ r ∈ rows, r.length = w

/-- All three components of a collater result exist and share the shape
`(n, w)`. -/
def outShapes (out : Option (List (List Nat) × List (List Nat) × List (List Nat)))
    (n w : Nat) : Prop :=
  match out with
  | none => False
  | some (s, t, m) => tensorShape s n w ∧ tensorShape t n w ∧ tensorShape m n w

/-- `_tokenize_and_mask` returns three tensors of identical shape
whenever the source and target strings agree in count and pointwise
length. -/
theorem tokenizeAndMask_shapes (alphabet : List Char) (padSym : Char)
    (src tgt : List (List Char)) (hne : src ≠ [])
    (hlen : src.map List.length = tgt.map List.length) :
    outShapes (tokenizeAndMask alphabet padSym src tgt) src.length
      (maxLenOf (tgt.map (tokenize alphabet))) := by
  have hsrcTokNe : ¬ (((src.map (tokenize alphabet))).isEmpty = true) := by
    cases src with
    | nil => exact absurd rfl hne
    | cons a l => simp
  have h1 : maxLenOf (src.map (tokenize alphabet)) = maxLenOf (tgt.map (tokenize alphabet)) :=
    maxLenOf_eq_of_map_length (by rw [tokenize_map_length, tokenize_map_length, hlen])
  have h2 : maxLenOf ((tgt.map (tokenize alphabet)).map
        (fun t => List.replicate t.length (1 : Nat)))
      = maxLenOf (tgt.map (tokenize alphabet)) :=
    maxLenOf_eq_of_map_length (by simp [List.map_map, Function.comp])
  have h3 : tgt.length = src.length := by
    have := congrArg List.length hlen
    simpa using this.symm
  unfold tokenizeAndMask
  rw [if_neg hsrcTokNe]
  refine ⟨⟨by simp [padRows], ?_⟩, ⟨by simp [padRows, h3], ?_⟩, ⟨by simp [padRows, h3], ?_⟩⟩
  · intro r hr
    rw [padRows_row_length hr, h1]
  · intro r hr
    exact padRows_row_length hr
  · intro r hr
    rw [padRows_row_length hr, h2]

theorem zipWith_length_eq (f g : List Char → List Char → List Char)
    (h : ∀ s a, (f s a).length = (g s a).length) (l1 l2 : List (List Char)) :
    (List.zipWith f l1 l2).map List.length = (List.zipWith g l1 l2).map List.length := by
  induction l1 generalizing l2 with
  | nil => simp
  | cons x xs ih => cases l2 <;> simp [h, ih]

/-- C10: the next-token collater returns `src`, `target` and `mask` all
of shape `(batch, max_len)`, and so does the ancestor-conditioned
collater (whose batch dimension is the number of zipped
sequence/ancestor pairs): per example the source and target strings
have equal length (`len + 1` for next-token,
`len(s) + len(a) + 2` for ancestor-conditioned) and the mask is built
as `ones_like(target)`. -/
theorem c10_shapes (alphabet : List Char) (padSym startSym stopSym : Char) (backwards : Bool)
    (sequences ancestors : List (List Char)) (h1 : sequences ≠ []) (h2 : ancestors ≠ []) :
    outShapes (lmPrep alphabet padSym startSym stopSym backwards sequences)
      sequences.length (lmWidth alphabet startSym stopSym backwards sequences) ∧
    outShapes (ancestorPrep alphabet padSym startSym stopSym backwards sequences ancestors)
      (min sequences.length ancestors.length)
      (ancWidth alphabet stopSym backwards sequences ancestors) := by
  constructor
  · have hsrcne : lmSrcStrings backwards startSym stopSym sequences ≠ [] := by
      unfold lmSrcStrings
      cases backwards <;> cases sequences <;> simp_all
    have hlen : (lmSrcStrings backwards startSym stopSym sequences).map List.length
        = (lmTgtStrings backwards startSym stopSym sequences).map List.length := by
      unfold lmSrcStrings lmTgtStrings
      cases backwards <;> simp [List.map_map, Function.comp]
    have hout := tokenizeAndMask_shapes alphabet padSym _ _ hsrcne hlen
    have hcount : (lmSrcStrings backwards startSym stopSym sequences).length
        = sequences.length := by
      unfold lmSrcStrings
      cases backwards <;> simp
    rw [hcount] at hout
    exact hout
  · have hsrclen : (ancSrcStrings startSym stopSym backwards sequences ancestors).length
        = min sequences.length ancestors.length := by
      unfold ancSrcStrings
      cases backwards <;> simp [List.length_zipWith]
    have hsrcne : ancSrcStrings startSym stopSym backwards sequences ancestors ≠ [] := by
      have hpos : 0 < min sequences.length ancestors.length :=
        lt_min (List.length_pos.mpr h1) (List.length_pos.mpr h2)
      intro hcon
      rw [← hsrclen] at hpos
      rw [hcon] at hpos
      simp at hpos
    have hlen : (ancSrcStrings startSym stopSym backwards sequences ancestors).map List.length
        = (ancTgtStrings stopSym backwards sequences ancestors).map List.length := by
      unfold ancSrcStrings ancTgtStrings
      apply zipWith_length_eq
      intro s a
      simp
      omega
    have hout := tokenizeAndMask_shapes alphabet padSym _ _ hsrcne hlen
    rw [hsrclen] at hout
    exact hout

/-- Witness for C10: a one-pair batch through both collaters. -/
theorem c10_witness :
    (([['A']] : List (List Char)) ≠ [] ∧ ([['B']] : List (List Char)) ≠ []) ∧
    (outShapes (lmPrep ['$', '*', '-', 'A', 'B'] '-' '$' '*' false [['A']])
      (List.length [['A']]) (lmWidth ['$', '*', '-', 'A', 'B'] '$' '*' false [['A']]) ∧
    outShapes (ancestorPrep ['$', '*', '-', 'A', 'B'] '-' '$' '*' false [['A']] [['B']])
      (min (List.length [['A']]) (List.length [['B']]))
      (ancWidth ['$', '*', '-', 'A', 'B'] '*' false [['A']] [['B']])) :=
  ⟨⟨by decide, by decide⟩,
    c10_shapes ['$', '*', '-', 'A', 'B'] '-' '$' '*' false [['A']] [['B']]
      (by decide) (by decide)⟩

/-! ### MLMCollater (data.py lines 211-244)

`MLMCollater._prep` copies the batch into a target list, removing every
zero-length sequence from it (`tgt.remove(seq)` removes the first equal
— hence some empty — element, once per empty sequence encountered) and
skipping those sequences entirely when building the source and mask
rows.  For each kept sequence of length `L` it draws
`random.sample(range(L), int(L * 0.15))` distinct positions (falling
back to a single `np.random.choice(L)` position when `int(L * 0.15)`
is zero), corrupts each drawn position (keep with probability 0.10,
random replacement with probability 0.10, MASK otherwise), and marks the
drawn positions with 1 in a zero-initialised mask row. -/

/-- Embeds `int(len(seq) * 0.15)` from data.py line 221.  `0.15` as an
IEEE-754 double is `5404319552844595 / 2^55`, slightly below `3/20`;
`L * 0.15` rounds the product to the nearest double, and for every `L`
below `2^50` that rounding lands on `3L/20` exactly when `3L/20` is an
integer (the deficit `L * 2e-18` is under half an ulp) and otherwise
stays within `1/20` of the exact value, so truncation agrees with
`⌊3L/20⌋` throughout. -/
def mlmNumMod (L : Nat) : Nat := 3 * L / 20

/-- The random draws `MLMCollater._prep` consumes for one sequence:
the `random.sample` result, the `np.random.choice` fallback position,
the per-position `np.random.uniform()` draw, and the replacement symbol
drawn from `ALL_AAS`. -/
structure MLMRand where
  sample : List Nat
  fallback : Nat
  pDraw : Nat → Rat
  repl : Nat → Char

/-- The `mod_idx` list the code ends up with for a sequence of length
`L` (data.py lines 221-223): the sample, or the single fallback
position when `int(L * 0.15)` is zero. -/
def mlmModIdx (L : Nat) (r : MLMRand) : List Nat :=
  if mlmNumMod L = 0 then [r.fallback] else r.sample

/-- What the random library guarantees about the draws for a sequence
of length `L`: `random.sample(range(L), k)` returns `k` distinct
in-range positions, and `np.random.choice(L)` one in-range position. -/
def MLMRandValid (L : Nat) (r : MLMRand) : Prop :=
  (mlmNumMod L = 0 → r.fallback < L) ∧
  (mlmNumMod L ≠ 0 →
    r.sample.length = mlmNumMod L ∧ r.sample.Nodup ∧ ∀ i ∈ r.sample, i < L)

instance (L : Nat) (r : MLMRand) : Decidable (MLMRandValid L r) := by
  unfold MLMRandValid
  infer_instance

/-- Embeds the mask-row construction of data.py lines 235-236:
`m = torch.zeros(len(seq_mod)); m[mod_idx] = 1` (the float tensor's
entries are modelled as `Nat`). -/
def mlmMaskRow (L : Nat) (modIdx : List Nat) : List Nat :=
  modIdx.foldl (fun acc i => acc.set i 1) (List.replicate L 0)

/-- Embeds the corruption loop of data.py lines 224-233: at each drawn
position keep the symbol when `p <= 0.10`, use the replacement draw when
`0.10 < p <= 0.20`, and write MASK otherwise. -/
def mlmCorrupt (maskSym : Char) (seq : List Char) (r : MLMRand)
    (modIdx : List Nat) : List Char :=
  modIdx.foldl
    (fun acc i =>
      acc.set i
        (if r.pDraw i ≤ 1 / 10 then seq.getD i maskSym
         else if r.pDraw i ≤ 2 / 10 then r.repl i
         else maskSym))
    seq

/-- Embeds the target-list construction of data.py lines 214-219:
`tgt = list(sequences)`, then one `tgt.remove(seq)` per zero-length
sequence encountered. -/
def mlmTgtStrings (sequences : List (List Char)) : List (List Char) :=
  sequences.foldl (fun acc s => if s.length = 0 then acc.erase s else acc) sequences

/-- Embeds the per-sequence loop of data.py lines 217-237: source and
mask rows are built only for non-empty sequences, each consuming the
randomness of its position in the batch. -/
def mlmSrcMaskRows (maskSym : Char) (rand : Nat → MLMRand)
    (sequences : List (List Char)) : List (List Char) × List (List Nat) :=
  let kept := sequences.enum.filter (fun p => p.2.length != 0)
  ( kept.map (fun p => mlmCorrupt maskSym p.2 (rand p.1) (mlmModIdx p.2.length (rand p.1)))
  , kept.map (fun p => mlmMaskRow p.2.length (mlmModIdx p.2.length (rand p.1))) )

/-- Embeds `MLMCollater._prep` (data.py lines 213-244): tokenize the
source and target strings, pad them with the PAD id and the mask rows
with 0.  The `max()` failure inside `_pad` on an all-empty batch is
surfaced as `none`. -/
def mlmPrep (alphabet : List Char) (padSym maskSym : Char) (rand : Nat → MLMRand)
    (sequences : List (List Char)) :
    Option (List (List Nat) × List (List Nat) × List (List Nat)) :=
  if ((mlmSrcMaskRows maskSym rand sequences).1.map (tokenize alphabet)).isEmpty then none
  else some
    ( padRows ((mlmSrcMaskRows maskSym rand sequences).1.map (tokenize alphabet))
        (alphabet.indexOf padSym)
    , padRows ((mlmTgtStrings sequences).map (tokenize alphabet)) (alphabet.indexOf padSym)
    , padRows (mlmSrcMaskRows maskSym rand sequences).2 0 )

/-- The batch dimension of a collater output's source component. -/
def srcRowCount (out : Option (List (List Nat) × List (List Nat) × List (List Nat))) :
    Option Nat :=
  out.map (fun x => x.1.length)

/-- The batch dimension of a collater output's target component. -/
def tgtRowCount (out : Option (List (List Nat) × List (List Nat) × List (List Nat))) :
    Option Nat :=
  out.map (fun x => x.2.1.length)

theorem foldl_set_length (modIdx : List Nat) :
    ∀ acc : List Nat, (modIdx.foldl (fun a i => a.set i 1) acc).length = acc.length := by
  induction modIdx with
  | nil => intro acc; rfl
  | cons i rest ih =>
    intro acc
    rw [List.foldl_cons, ih, List.length_set]

theorem foldl_set_getD (modIdx : List Nat) :
    ∀ (acc : List Nat) (j : Nat), j < acc.length →
      (modIdx.foldl (fun a i => a.set i 1) acc).getD j 0
        = if j ∈ modIdx then 1 else acc.getD j 0 := by
  induction modIdx with
  | nil => intro acc j _; simp
  | cons i rest ih =>
    intro acc j hj
    rw [List.foldl_cons, ih (acc.set i 1) j (by simpa using hj)]
    by_cases hjr : j ∈ rest
    · simp [hjr]
    · by_cases hij : j = i
      · subst hij
        rw [if_neg hjr, if_pos (by simp)]
        rw [List.getD_eq_getElem?_getD, List.getElem?_set_self hj]
        rfl
      · rw [if_neg hjr, if_neg (by simp [hij, hjr])]
        rw [List.getD_eq_getElem?_getD, List.getElem?_set_ne (Ne.symm hij),
          ← List.getD_eq_getElem?_getD]

theorem mlmMaskRow_length (L : Nat) (modIdx : List Nat) :
    (mlmMaskRow L modIdx).length = L := by
  unfold mlmMaskRow
  rw [foldl_set_length]
  exact List.length_replicate L 0

theorem mlmMaskRow_eq_map (L : Nat) (modIdx : List Nat) :
    mlmMaskRow L modIdx
      = (List.range L).map (fun j => if j ∈ modIdx then 1 else 0) := by
  apply List.ext_getElem?
  intro j
  by_cases hj : j < L
  · have hl : j < (mlmMaskRow L modIdx).length := by rw [mlmMaskRow_length]; exact hj
    have hr : j < ((List.range L).map (fun j => if j ∈ modIdx then (1 : Nat) else 0)).length := by
      simpa using hj
    rw [List.getElem?_eq_getElem hl, List.getElem?_eq_getElem hr]
    have hgd : (mlmMaskRow L modIdx).getD j 0
        = if j ∈ modIdx then 1 else (List.replicate L (0 : Nat)).getD j 0 :=
      foldl_set_getD modIdx (List.replicate L 0) j (by simpa using hj)
    rw [List.getD_eq_getElem?_getD, List.getElem?_eq_getElem hl] at hgd
    simp only [Option.getD_some] at hgd
    rw [hgd]
    congr 1
    rw [List.getD_eq_getElem?_getD]
    simp [hj]
  · rw [List.getElem?_eq_none (by rw [mlmMaskRow_length]; omega),
      List.getElem?_eq_none (by simp; omega)]

/-- The mask row built for drawn positions holds exactly one `1` per
distinct in-range drawn position. -/
theorem mlmMaskRow_count (L : Nat) (modIdx : List Nat) (hnd : modIdx.Nodup)
    (hb : ∀ i ∈ modIdx, i < L) : (mlmMaskRow L modIdx).count 1 = modIdx.length := by
  rw [mlmMaskRow_eq_map]
  unfold List.count
  rw [List.countP_map]
  rw [List.countP_congr (q := fun j => decide (j ∈ modIdx))
    (by intro j _; by_cases h : j ∈ modIdx <;> simp [h, Function.comp])]
  rw [List.countP_eq_length_filter]
  have hFnd : ((List.range L).filter (fun j => decide (j ∈ modIdx))).Nodup :=
    List.Nodup.filter _ (List.nodup_range L)
  have e1 : ((List.range L).filter (fun j => decide (j ∈ modIdx))).toFinset
      = modIdx.toFinset := by
    ext j
    simp only [List.mem_toFinset, List.mem_filter, List.mem_range, decide_eq_true_eq]
    exact ⟨fun h => h.2, fun h => ⟨hb j h, h⟩⟩
  calc ((List.range L).filter (fun j => decide (j ∈ modIdx))).length
      = ((List.range L).filter (fun j => decide (j ∈ modIdx))).dedup.length := by
        rw [List.dedup_eq_self.mpr hFnd]
    _ = Finset.card ((List.range L).filter (fun j => decide (j ∈ modIdx))).toFinset :=
        (List.card_toFinset _).symm
    _ = Finset.card modIdx.toFinset := by rw [e1]
    _ = modIdx.dedup.length := List.card_toFinset _
    _ = modIdx.length := by rw [List.dedup_eq_self.mpr hnd]

/-- C3 (amended): for a non-empty sequence of length `L` and valid
draws, the number of positions marked `1` in the mask row equals
`int(0.15 * L)` — truncation, i.e. `⌊3L/20⌋` — clamped to at least 1.
In particular a length-10 sequence gets exactly `max (mlmNumMod 10) 1 = 1`
marked position. -/
theorem c3_amended (L : Nat) (hL : 0 < L) (r : MLMRand) (hv : MLMRandValid L r) :
    (mlmMaskRow L (mlmModIdx L r)).count 1 = max (mlmNumMod L) 1 := by
  unfold mlmModIdx
  by_cases h0 : mlmNumMod L = 0
  · rw [if_pos h0]
    rw [mlmMaskRow_count _ _ (by simp)
      (by intro i hi; simp only [List.mem_singleton] at hi; subst hi; exact hv.1 h0)]
    simp [h0]
  · rw [if_neg h0]
    obtain ⟨hlen, hnd, hb⟩ := hv.2 h0
    rw [mlmMaskRow_count _ _ hnd hb, hlen]
    omega

/-- Witness for C3 (amended): length 10, a valid single-element sample
`[4]` (`int(10 * 0.15) = 1`), yielding exactly one marked position. -/
theorem c3_amended_witness :
    (0 < 10 ∧ MLMRandValid 10 ⟨[4], 0, fun _ => 1, fun _ => 'A'⟩) ∧
    (mlmMaskRow 10 (mlmModIdx 10 ⟨[4], 0, fun _ => 1, fun _ => 'A'⟩)).count 1
      = max (mlmNumMod 10) 1 :=
  ⟨⟨by decide, by decide⟩,
    c3_amended 10 (by decide) ⟨[4], 0, fun _ => 1, fun _ => 'A'⟩ (by decide)⟩

/-- Counterexample to C3 as stated: the code computes
`int(len(seq) * 0.15)` — truncation — so a sequence of length 10 gets
`int(1.5) = 1` marked position, not the claimed `round(0.15 * 10) = 2`:
a concrete valid run of the collater's mask construction at length 10
marks exactly 1 position. -/
theorem c3_counterexample :
    MLMRandValid 10 ⟨[4], 0, fun _ => 1, fun _ => 'A'⟩ ∧
    (mlmMaskRow 10 (mlmModIdx 10 ⟨[4], 0, fun _ => 1, fun _ => 'A'⟩)).count 1 = 1 ∧
    ¬ (mlmMaskRow 10 (mlmModIdx 10 ⟨[4], 0, fun _ => 1, fun _ => 'A'⟩)).count 1 = 2 := by
  refine ⟨by decide, by decide, by decide⟩

theorem erase_iterate_cons_ne (x : List Char) (hx : x ≠ []) (n : Nat) :
    ∀ l : List (List Char),
      (fun a : List (List Char) => a.erase [])^[n] (x :: l)
        = x :: (fun a : List (List Char) => a.erase [])^[n] l := by
  induction n with
  | zero => intro l; rfl
  | succ n ih =>
    intro l
    rw [Function.iterate_succ_apply, Function.iterate_succ_apply]
    have hbe : ¬ ((x == ([] : List Char)) = true) := by
      simpa using hx
    show (fun a : List (List Char) => a.erase [])^[n] ((x :: l).erase []) = _
    rw [List.erase_cons_tail hbe]
    exact ih (l.erase [])

theorem erase_iterate_count (l : List (List Char)) :
    (fun a : List (List Char) => a.erase [])^[l.countP (fun s => s.length == 0)] l
      = l.filter (fun s => s.length != 0) := by
  induction l with
  | nil => rfl
  | cons x xs ih =>
    by_cases hx : x = []
    · subst hx
      rw [List.countP_cons_of_pos (fun s : List Char => s.length == 0) _ (by simp),
        Function.iterate_succ_apply]
      show (fun a : List (List Char) => a.erase [])^[xs.countP (fun s => s.length == 0)]
        (([] :: xs).erase []) = _
      rw [List.erase_cons_head, ih]
      simp
    · have hlen : ¬ ((x.length == 0) = true) := by
        simpa [List.length_eq_zero] using hx
      rw [List.countP_cons_of_neg (fun s : List Char => s.length == 0) _ hlen,
        erase_iterate_cons_ne x hx, ih]
      have : (x.length != 0) = true := by
        simpa [List.length_eq_zero] using hx
      simp [List.filter_cons, this]

theorem mlmTgtStrings_eq_filter (sequences : List (List Char)) :
    mlmTgtStrings sequences = sequences.filter (fun s => s.length != 0) := by
  have hfold : ∀ (iter acc : List (List Char)),
      iter.foldl (fun acc s => if s.length = 0 then acc.erase s else acc) acc
        = (fun a : List (List Char) => a.erase [])^[iter.countP (fun s => s.length == 0)]
            acc := by
    intro iter
    induction iter with
    | nil => intro acc; rfl
    | cons s rest ih =>
      intro acc
      by_cases hs : s.length = 0
      · have hseq : s = [] := List.length_eq_zero.mp hs
        subst hseq
        rw [List.foldl_cons, if_pos hs, ih,
          List.countP_cons_of_pos (fun s : List Char => s.length == 0) _ (by simp),
          Function.iterate_succ_apply]
      · rw [List.foldl_cons, if_neg hs, ih,
          List.countP_cons_of_neg (fun s : List Char => s.length == 0) _
            (by simpa using hs)]
  rw [mlmTgtStrings, hfold, erase_iterate_count]

theorem enumFrom_filter_snd_length (q : List Char → Bool) (l : List (List Char)) :
    ∀ n : Nat, ((List.enumFrom n l).filter (fun p => q p.2)).length
      = (l.filter q).length := by
  induction l with
  | nil => intro n; rfl
  | cons x xs ih =>
    intro n
    by_cases hq : q x
    · simp [List.enumFrom_cons, List.filter_cons, hq, ih]
    · simp [List.enumFrom_cons, List.filter_cons, hq, ih]

theorem mlmSrc_length (maskSym : Char) (rand : Nat → MLMRand)
    (sequences : List (List Char)) :
    (mlmSrcMaskRows maskSym rand sequences).1.length
      = (sequences.filter (fun s => s.length != 0)).length := by
  unfold mlmSrcMaskRows
  simp only [List.length_map]
  exact enumFrom_filter_snd_length (fun s => s.length != 0) sequences 0

/-- C5 (amended): zero-length sequences are dropped from the target
list and equally skipped when building the source and mask rows, so the
source and target tensors returned by `MLMCollater._prep` have the SAME
batch size — the number of non-empty sequences — not different ones. -/
theorem c5_amended (alphabet : List Char) (padSym maskSym : Char) (rand : Nat → MLMRand)
    (sequences : List (List Char))
    (h : sequences.filter (fun s => s.length != 0) ≠ []) :
    srcRowCount (mlmPrep alphabet padSym maskSym rand sequences)
        = some ((sequences.filter (fun s => s.length != 0)).length) ∧
    tgtRowCount (mlmPrep alphabet padSym maskSym rand sequences)
        = some ((sequences.filter (fun s => s.length != 0)).length) := by
  have hsrc := mlmSrc_length maskSym rand sequences
  have hne : ¬ ((((mlmSrcMaskRows maskSym rand sequences).1.map
      (tokenize alphabet))).isEmpty = true) := by
    rw [List.isEmpty_iff, List.map_eq_nil_iff]
    intro hcon
    apply h
    have hzero : (sequences.filter (fun s => s.length != 0)).length = 0 := by
      rw [← hsrc, hcon]
      rfl
    exact List.length_eq_zero.mp hzero
  unfold mlmPrep
  rw [if_neg hne]
  constructor
  · simp [srcRowCount, padRows, hsrc]
  · simp [tgtRowCount, padRows, mlmTgtStrings_eq_filter]

/-- Witness for C5 (amended): the batch `["", "AB"]` yields source and
target tensors that both have exactly one row. -/
theorem c5_amended_witness :
    (([[], ['A', 'B']] : List (List Char)).filter (fun s => s.length != 0) ≠ []) ∧
    (srcRowCount (mlmPrep ['A', 'B', '-', '#'] '-' '#'
        (fun _ => ⟨[0], 0, fun _ => 1, fun _ => 'A'⟩) [[], ['A', 'B']])
      = some ((([[], ['A', 'B']] : List (List Char)).filter
          (fun s => s.length != 0)).length) ∧
    tgtRowCount (mlmPrep ['A', 'B', '-', '#'] '-' '#'
        (fun _ => ⟨[0], 0, fun _ => 1, fun _ => 'A'⟩) [[], ['A', 'B']])
      = some ((([[], ['A', 'B']] : List (List Char)).filter
          (fun s => s.length != 0)).length)) :=
  ⟨by decide,
    c5_amended ['A', 'B', '-', '#'] '-' '#'
      (fun _ => ⟨[0], 0, fun _ => 1, fun _ => 'A'⟩) [[], ['A', 'B']] (by decide)⟩

/-- Counterexample to C5 as stated: the batch `["", "AB"]` contains a
zero-length and a non-empty sequence, yet the source and target tensors
returned by the embedded `MLMCollater._prep` BOTH have one row — the
loop `continue`s past empty sequences without appending to `src`, so the
batch sizes never desync. -/
theorem c5_counterexample :
    srcRowCount (mlmPrep ['A', 'B', '-', '#'] '-' '#'
        (fun _ => ⟨[0], 0, fun _ => 1, fun _ => 'A'⟩) [[], ['A', 'B']]) = some 1 ∧
    tgtRowCount (mlmPrep ['A', 'B', '-', '#'] '-' '#'
        (fun _ => ⟨[0], 0, fun _ => 1, fun _ => 'A'⟩) [[], ['A', 'B']]) = some 1 := by
  refine ⟨by decide, by decide⟩

/-! ### SortishSampler (data.py lines 291-322)

`__init__` computes `np.argsort(sequence_lengths)`, slices the sorted
index list into `ceil(n / bucket_size)` contiguous buckets of
`bucket_size`, and sets `num_samples = ceil(n / num_replicas)` and
`total_size = num_samples * num_replicas`.  `__iter__` shuffles inside
each bucket, shuffles the bucket order, flattens, pads with the single
slice `indices[:total_size - len(indices)]`, asserts the padded length
equals `total_size`, takes `indices[rank : total_size : num_replicas]`,
and asserts that slice has `num_samples` elements.

`np.argsort` is embedded as a stable insertion sort on the index range;
numpy's default introsort may permute tied indices, but ties only occur
between equal lengths, so bucket contents as sets of (length-labelled)
indices are unaffected.  The epoch-seeded shuffles are abstracted as a
`Perm`-constrained parameter, and the two asserts as `Option`. -/

/-- Stable insertion step: place `x` before the first element it
compares `le` to. -/
def insertLe (le : Nat → Nat → Bool) (x : Nat) : List Nat → List Nat
  | [] => [x]
  | y :: ys => if le x y then x :: y :: ys else y :: insertLe le x ys

/-- Stable insertion sort. -/
def insertionSort (le : Nat → Nat → Bool) (l : List Nat) : List Nat :=
  l.foldr (insertLe le) []

/-- Embeds `np.argsort(sequence_lengths)` (data.py line 295): the index
range sorted ascending by looked-up length, stably. -/
def argsortLen (lengths : List Nat) : List Nat :=
  insertionSort (fun i j => Nat.ble (lengths.getD i 0) (lengths.getD j 0))
    (List.range lengths.length)

/-- Embeds the bucket partition of data.py lines 299-300:
`self.data = [data[i*bs : i*bs + bs] for i in range(n_buckets)]` with
`n_buckets = ceil(n / bucket_size)` (exact for realistic sizes despite
the float `np.ceil`). -/
def sortishData (lengths : List Nat) (bucketSize : Nat) : List (List Nat) :=
  (List.range (((argsortLen lengths).length + bucketSize - 1) / bucketSize)).map
    (fun i => ((argsortLen lengths).drop (i * bucketSize)).take bucketSize)

/-- Embeds `int(math.ceil(len(self.data) * 1.0 / self.num_replicas))`
(data.py line 297); the float ceiling equals the integer ceiling
`(n + r - 1) / r` for every realistic dataset size (both below 2^52,
where the double arithmetic is exact enough for the ceiling). -/
def sortishNumSamples (n numReplicas : Nat) : Nat :=
  (n + numReplicas - 1) / numReplicas

/-- `self.total_size = self.num_samples * self.num_replicas`
(data.py line 303). -/
def sortishTotalSize (n numReplicas : Nat) : Nat :=
  sortishNumSamples n numReplicas * numReplicas

/-- Python's extended slice `l[start : len(l) : step]` for a positive
step: the elements at `start, start + step, ...` below `len(l)`. -/
def pySlice (l : List Nat) (start step : Nat) : List Nat :=
  (List.range ((l.length - start + step - 1) / step)).map
    (fun k => l.getD (start + k * step) 0)

/-- Embeds `SortishSampler.__iter__` (data.py lines 305-316) after the
epoch-seeded shuffles: flatten the (shuffled) buckets `sh`, pad with
`indices[:total_size - len(indices)]`, and subsample
`indices[rank : total_size : num_replicas]`; each failing `assert` is
`none`. -/
def sortishIterRaw (sh : List (List Nat)) (n numReplicas rank : Nat) : Option (List Nat) :=
  if (sh.flatten ++ sh.flatten.take
      (sortishTotalSize n numReplicas - sh.flatten.length)).length
      = sortishTotalSize n numReplicas then
    if (pySlice ((sh.flatten ++ sh.flatten.take
          (sortishTotalSize n numReplicas - sh.flatten.length)).take
          (sortishTotalSize n numReplicas)) rank numReplicas).length
        = sortishNumSamples n numReplicas then
      some (pySlice ((sh.flatten ++ sh.flatten.take
          (sortishTotalSize n numReplicas - sh.flatten.length)).take
          (sortishTotalSize n numReplicas)) rank numReplicas)
    else none
  else none

/-- C4 (amended): for lengths `[3,1,4,1,5,9,2,6]` and `bucket_size = 4`
the sampler's construction buckets the indices by ascending length: the
two buckets hold the indices whose lengths are `[1,1,2,3]` and
`[4,5,6,9]` respectively (not the first and last four dataset
indices). -/
theorem c4_amended :
    (sortishData [3, 1, 4, 1, 5, 9, 2, 6] 4).map
        (fun b => b.map (fun i => [3, 1, 4, 1, 5, 9, 2, 6].getD i 0))
      = [[1, 1, 2, 3], [4, 5, 6, 9]] := by
  decide

/-- Counterexample to C4 as stated: the buckets are built from the
length-sorted index order `[1,3,6,0,2,4,7,5]`, so the first bucket is
not the first four dataset indices `[0,1,2,3]` — index 2 (length 4)
lands in the second bucket, and the first bucket's lengths are
`[1,1,2,3]`, which does not even contain the claimed length 4. -/
theorem c4_counterexample :
    sortishData [3, 1, 4, 1, 5, 9, 2, 6] 4 = [[1, 3, 6, 0], [2, 4, 7, 5]] ∧
    2 ∉ (sortishData [3, 1, 4, 1, 5, 9, 2, 6] 4).getD 0 [] ∧
    2 ∈ (sortishData [3, 1, 4, 1, 5, 9, 2, 6] 4).getD 1 [] ∧
    4 ∉ ((sortishData [3, 1, 4, 1, 5, 9, 2, 6] 4).getD 0 []).map
        (fun i => [3, 1, 4, 1, 5, 9, 2, 6].getD i 0) := by
  refine ⟨by decide, by decide, by decide, by decide⟩

theorem insertLe_length (le : Nat → Nat → Bool) (x : Nat) :
    ∀ l : List Nat, (insertLe le x l).length = l.length + 1 := by
  intro l
  induction l with
  | nil => rfl
  | cons y ys ih => by_cases h : le x y <;> simp [insertLe, h, ih]

theorem insertionSort_length (le : Nat → Nat → Bool) (l : List Nat) :
    (insertionSort le l).length = l.length := by
  unfold insertionSort
  induction l with
  | nil => rfl
  | cons x xs ih => simp only [List.foldr_cons, insertLe_length, ih, List.length_cons]

theorem argsortLen_length (lengths : List Nat) :
    (argsortLen lengths).length = lengths.length := by
  unfold argsortLen
  rw [insertionSort_length, List.length_range]

/-- Joining the bucket slices reproduces the sorted index list. -/
theorem chunks_flatten (bs : Nat) (hbs : 1 ≤ bs) :
    ∀ (k : Nat) (l : List Nat), l.length ≤ k →
      ((List.range ((l.length + bs - 1) / bs)).map
        (fun i => (l.drop (i * bs)).take bs)).flatten = l := by
  intro k
  induction k with
  | zero =>
    intro l hl
    have hnil : l = [] := List.length_eq_zero.mp (by omega)
    subst hnil
    have hz : (([] : List Nat).length + bs - 1) / bs = 0 := Nat.div_eq_of_lt (by simp; omega)
    rw [hz]
    rfl
  | succ k ih =>
    intro l hl
    rcases eq_or_ne l [] with rfl | hne
    · have hz : (([] : List Nat).length + bs - 1) / bs = 0 := Nat.div_eq_of_lt (by simp; omega)
      rw [hz]
      rfl
    · have hpos : 0 < l.length := List.length_pos.mpr hne
      have hsplit : (l.length + bs - 1) / bs = (l.length - 1) / bs + 1 := by
        have h1 : l.length + bs - 1 = (l.length - 1) + 1 * bs := by omega
        rw [h1, Nat.add_mul_div_right _ _ (by omega : 0 < bs)]
      have hm : (l.length - 1) / bs = ((l.drop bs).length + bs - 1) / bs := by
        rw [List.length_drop]
        rcases le_or_lt bs l.length with hle | hlt
        · congr 1
          omega
        · rw [Nat.div_eq_of_lt (by omega), Nat.div_eq_of_lt (by omega)]
      rw [hsplit, List.range_succ_eq_map, List.map_cons, List.flatten_cons, List.map_map]
      have hcongr : (List.range ((l.length - 1) / bs)).map
            ((fun i => (l.drop (i * bs)).take bs) ∘ Nat.succ)
          = (List.range (((l.drop bs).length + bs - 1) / bs)).map
            (fun i => ((l.drop bs).drop (i * bs)).take bs) := by
        rw [hm]
        apply List.map_congr_left
        intro i _
        simp only [Function.comp]
        rw [List.drop_drop]
        congr 2
        rw [Nat.succ_mul]
        exact Nat.add_comm _ _
      rw [hcongr, ih (l.drop bs) (by rw [List.length_drop]; omega)]
      simp

theorem sortishData_flatten (lengths : List Nat) (bucketSize : Nat) (hbs : 1 ≤ bucketSize) :
    (sortishData lengths bucketSize).flatten = argsortLen lengths := by
  unfold sortishData
  exact chunks_flatten bucketSize hbs (argsortLen lengths).length _ le_rfl

theorem pySlice_length (l : List Nat) (start step : Nat) :
    (pySlice l start step).length = (l.length - start + step - 1) / step := by
  unfold pySlice
  rw [List.length_map, List.length_range]

theorem stride_count (ns r rank : Nat) (hr : 1 ≤ r) (hrank : rank < r) :
    (ns * r - rank + r - 1) / r = ns := by
  rcases Nat.eq_zero_or_pos ns with rfl | hns
  · simp only [Nat.zero_mul, Nat.zero_sub]
    exact Nat.div_eq_of_lt (by omega)
  · have hts : r ≤ ns * r := by
      calc r = 1 * r := (one_mul r).symm
        _ ≤ ns * r := Nat.mul_le_mul_right r hns
    have heq : ns * r - rank + r - 1 = (r - 1 - rank) + ns * r := by omega
    rw [heq, Nat.add_mul_div_right _ _ (by omega : 0 < r), Nat.div_eq_of_lt (by omega)]
    omega

/-- C6 (amended): for every lengths list, `bucket_size ≥ 1`,
`num_shards ≥ 1`, `shard_rank < num_shards`, and any epoch shuffle `sh`
of the constructed buckets, PROVIDED the pad debt
`total_size - n` is at most `n` (one front slice suffices — otherwise
the sampler's own assert fails, see the counterexample), the iteration
pads the flattened index list to exactly `total_size` by repeating
indices from the front and yields exactly
`num_samples = ceil(n / num_shards)` indices, namely
`indices[shard_rank : total_size : num_shards]`; `__len__` is this same
`num_samples`. -/
theorem c6_amended (lengths : List Nat) (bucketSize numReplicas rank : Nat)
    (sh : List (List Nat)) (hbs : 1 ≤ bucketSize) (hr : 1 ≤ numReplicas)
    (hrank : rank < numReplicas)
    (hsh : sh.flatten.Perm (sortishData lengths bucketSize).flatten)
    (hpad : sortishTotalSize lengths.length numReplicas ≤ 2 * lengths.length) :
    sortishIterRaw sh lengths.length numReplicas rank
        = some (pySlice (sh.flatten ++ sh.flatten.take
            (sortishTotalSize lengths.length numReplicas - sh.flatten.length))
            rank numReplicas) ∧
    (pySlice (sh.flatten ++ sh.flatten.take
        (sortishTotalSize lengths.length numReplicas - sh.flatten.length))
        rank numReplicas).length
      = sortishNumSamples lengths.length numReplicas := by
  have hn : sh.flatten.length = lengths.length := by
    rw [hsh.length_eq, sortishData_flatten lengths bucketSize hbs, argsortLen_length]
  have hmul : sortishTotalSize lengths.length numReplicas
      = sortishNumSamples lengths.length numReplicas * numReplicas := rfl
  have hge : lengths.length ≤ sortishTotalSize lengths.length numReplicas := by
    have hdm := Nat.div_add_mod (lengths.length + numReplicas - 1) numReplicas
    have hml : (lengths.length + numReplicas - 1) % numReplicas < numReplicas :=
      Nat.mod_lt _ (by omega)
    have hcomm : sortishNumSamples lengths.length numReplicas * numReplicas
        = numReplicas * sortishNumSamples lengths.length numReplicas := Nat.mul_comm _ _
    unfold sortishTotalSize
    unfold sortishNumSamples at *
    omega
  have hplen : (sh.flatten ++ sh.flatten.take
      (sortishTotalSize lengths.length numReplicas - sh.flatten.length)).length
      = sortishTotalSize lengths.length numReplicas := by
    rw [List.length_append, List.length_take, hn]
    omega
  have htake : (sh.flatten ++ sh.flatten.take
      (sortishTotalSize lengths.length numReplicas - sh.flatten.length)).take
        (sortishTotalSize lengths.length numReplicas)
      = sh.flatten ++ sh.flatten.take
        (sortishTotalSize lengths.length numReplicas - sh.flatten.length) :=
    List.take_of_length_le (le_of_eq hplen)
  have hslice : (pySlice (sh.flatten ++ sh.flatten.take
      (sortishTotalSize lengths.length numReplicas - sh.flatten.length)) rank numReplicas).length
      = sortishNumSamples lengths.length numReplicas := by
    rw [pySlice_length, hplen, hmul, stride_count _ _ _ hr hrank]
  refine ⟨?_, hslice⟩
  unfold sortishIterRaw
  rw [htake, if_pos hplen, if_pos hslice]

/-- Witness for C6 (amended): lengths `[5, 2]`, `bucket_size = 1`, two
shards, rank 0, identity shuffle. -/
theorem c6_amended_witness :
    (1 ≤ 1 ∧ 1 ≤ 2 ∧ 0 < 2 ∧
      (sortishData [5, 2] 1).flatten.Perm (sortishData [5, 2] 1).flatten ∧
      sortishTotalSize 2 2 ≤ 2 * 2) ∧
    (sortishIterRaw (sortishData [5, 2] 1) 2 2 0
        = some (pySlice ((sortishData [5, 2] 1).flatten ++
            (sortishData [5, 2] 1).flatten.take
              (sortishTotalSize 2 2 - (sortishData [5, 2] 1).flatten.length)) 0 2) ∧
      (pySlice ((sortishData [5, 2] 1).flatten ++
          (sortishData [5, 2] 1).flatten.take
            (sortishTotalSize 2 2 - (sortishData [5, 2] 1).flatten.length)) 0 2).length
        = sortishNumSamples 2 2) :=
  ⟨⟨by decide, by decide, by decide, List.Perm.refl _, by decide⟩,
    c6_amended [5, 2] 1 2 0 (sortishData [5, 2] 1) (by decide) (by decide) (by decide)
      (List.Perm.refl _) (by decide)⟩

/-- Counterexample to C6 as stated: with one sequence and three shards
(`n = 1`, `num_shards = 3`) we get `total_size = 3`, but the single pad
slice `indices[:total_size - len(indices)]` can only repeat the one
available index once, so the padded list has length 2 and the
`assert len(indices) == self.total_size` fails (`AssertionError`) —
the claimed wrap-around-until-full padding ("not an error") does not
happen and no indices are yielded. -/
theorem c6_counterexample :
    sortishData [5] 1 = [[0]] ∧
    sortishIterRaw (sortishData [5] 1) 1 3 0 = none ∧
    sortishNumSamples 1 3 = 1 := by
  refine ⟨by decide, by decide, by decide⟩

/-! ### StructureCollater (data.py lines 247-288)

`__call__` collates the sequences with the wrapped collater, allocates
zero tensors `nodes (n, max_ell, 10)`, `edges (n, max_ell, nc, 6)`,
`connections (n, max_ell, nc)` and `edge_mask (n, max_ell, nc, 1)` with
`max_ell = max(lens) + 1`, and then, per example, `continue`s (leaving
the example's slices all-zero) when the structure is `None` or when
`np.random.random() < self.p_drop`; otherwise it writes the features
derived by the external geometry module (`sequence_models/gnn.py`,
outside the verified sources) into rows `1..ell`.  The geometry-derived
write is abstracted as an uninterpreted per-example `fill` function —
with `p_drop = 1.0` or an absent structure it is never invoked. -/

/-- One example's slice of the structure tensors. -/
structure StructBlock where
  nodes : List (List Rat)
  edges : List (List (List Rat))
  connections : List (List Nat)
  edgeMask : List (List (List Rat))
deriving DecidableEq

/-- The zero-initialised slice an example keeps when it is skipped:
rows `max_ell` deep, `n_connections` wide, feature dims 10/6/1. -/
def zeroBlock (maxEll nConn : Nat) : StructBlock where
  nodes := List.replicate maxEll (List.replicate 10 0)
  edges := List.replicate maxEll (List.replicate nConn (List.replicate 6 0))
  connections := List.replicate maxEll (List.replicate nConn 0)
  edgeMask := List.replicate maxEll (List.replicate nConn (List.replicate 1 0))

/-- Embeds the per-example loop of `StructureCollater.__call__`
(data.py lines 264-287): example `i` keeps the zero slice when its
structure is `None` or its dropout draw `np.random.random()` falls
below `p_drop`, and otherwise receives the geometry-derived features
(`fill`). -/
def structureBlocks {γ : Type} (pDrop : Rat) (draws : Nat → Rat)
    (fill : Nat → γ → StructBlock) (maxEll nConn : Nat)
    (structures : List (Option γ)) : List StructBlock :=
  structures.enum.map (fun p =>
    match p.2 with
    | none => zeroBlock maxEll nConn
    | some g => if draws p.1 < pDrop then zeroBlock maxEll nConn else fill p.1 g)

/-- C8: with `p_drop_structure = 1.0` every example's node, edge,
connection and edge-validity tensors stay entirely zero (every dropout
draw lies in `[0, 1)`, hence below 1), and an example whose structure
is absent stays entirely zero for ANY `p_drop_structure`. -/
theorem c8_structure_dropout {γ : Type} (pDrop : Rat) (draws : Nat → Rat)
    (fill : Nat → γ → StructBlock) (maxEll nConn : Nat)
    (structures : List (Option γ))
    (hdraw : ∀ i < structures.length, draws i < 1) :
    (∀ blk ∈ structureBlocks 1 draws fill maxEll nConn structures,
      blk = zeroBlock maxEll nConn) ∧
    (∀ i < structures.length, structures.getD i none = none →
      (structureBlocks pDrop draws fill maxEll nConn structures).getD i
          (zeroBlock maxEll nConn)
        = zeroBlock maxEll nConn) := by
  constructor
  · intro blk hblk
    rcases List.mem_map.mp hblk with ⟨⟨i, s⟩, hp, hfill⟩
    have hget := List.mem_enum_iff_getElem?.mp hp
    obtain ⟨hilen, -⟩ := List.getElem?_eq_some.mp hget
    cases s with
    | none => exact hfill.symm
    | some g =>
      have hred : (if draws i < (1 : Rat) then zeroBlock maxEll nConn else fill i g)
          = blk := hfill
      rw [if_pos (hdraw i hilen)] at hred
      exact hred.symm
  · intro i hi hnone
    have hval : structures[i] = none := by
      rw [List.getD_eq_getElem?_getD, List.getElem?_eq_getElem hi] at hnone
      simpa using hnone
    have hlt : i < structures.enum.length := by simpa using hi
    unfold structureBlocks
    rw [List.getD_eq_getElem?_getD, List.getElem?_map, List.getElem?_eq_getElem hlt]
    simp [hval]

/-- Witness for C8: two examples (one structure absent, one present)
with draw 0 and a deliberately non-zero `fill`; with `p_drop = 1`
both blocks stay zero, and the absent-structure example stays zero at
`p_drop = 0` too. -/
theorem c8_structure_dropout_witness :
    (∀ i < ([none, some ()] : List (Option Unit)).length, (fun _ => (0 : Rat)) i < 1) ∧
    ((∀ blk ∈ structureBlocks 1 (fun _ => (0 : Rat))
        (fun _ _ => { nodes := [[5]], edges := [], connections := [], edgeMask := [] })
        3 2 [none, some ()],
      blk = zeroBlock 3 2) ∧
    (∀ i < ([none, some ()] : List (Option Unit)).length,
      ([none, some ()] : List (Option Unit)).getD i none = none →
      (structureBlocks 0 (fun _ => (0 : Rat))
          (fun _ _ => { nodes := [[5]], edges := [], connections := [], edgeMask := [] })
          3 2 [none, some ()]).getD i (zeroBlock 3 2)
        = zeroBlock 3 2)) :=
  ⟨by decide,
    c8_structure_dropout 0 (fun _ => (0 : Rat))
      (fun _ _ => { nodes := [[5]], edges := [], connections := [], edgeMask := [] })
      3 2 [none, some ()] (by decide)⟩

end SeqModels
